import Mathlib

/-!
Shallow embedding of the stealth-address cryptographic core of
`src/stealth-address/pivy-stealth-fungibleasset-flow.js` (class `PivyStealthAptos`).

Bytes are modelled as `List Nat`; machine bytes are values `< 256`.  The
secp256k1 group is modelled abstractly: an arbitrary `AddCommGroup` of points
with a generator `G` and group order `n` (hypotheses such as `n • G = 0` are
carried by the theorems and instantiated by concrete witnesses).  External
libraries (`@noble/secp256k1` serialization, `@noble/hashes`, `bs58`, the
Aptos SDK) enter as explicit function parameters, with the facts the code
relies on stated as hypotheses.
-/

namespace Pivy

/-- Big-endian base-256 value of a byte list, as computed by
`BigInt('0x' + Buffer.from(bytes).toString('hex'))` in the source. -/
def bytesToNat (bs : List Nat) : Nat :=
  bs.foldl (fun a b => a * 256 + b) 0

/-- Big-endian byte serialization of a natural number at a fixed width `w`,
as computed by `scalar.toString(16).padStart(2*w, '0')` plus pairwise
`parseInt` in the source. -/
def natToBytesBE (w x : Nat) : List Nat :=
  (List.range w).map (fun i => x / 256 ^ (w - 1 - i) % 256)

/-- The 32-byte big-endian serialization used for stealth private keys. -/
def natToBytes32 (x : Nat) : List Nat := natToBytesBE 32 x

theorem bytesToNat_nil : bytesToNat [] = 0 := rfl

theorem bytesToNat_append_singleton (l : List Nat) (b : Nat) :
    bytesToNat (l ++ [b]) = 256 * bytesToNat l + b := by
  simp [bytesToNat, List.foldl_append, Nat.mul_comm]

theorem natToBytesBE_length (w x : Nat) : (natToBytesBE w x).length = w := by
  simp [natToBytesBE]

theorem natToBytesBE_succ (w x : Nat) :
    natToBytesBE (w + 1) x = natToBytesBE w (x / 256) ++ [x % 256] := by
  unfold natToBytesBE
  rw [List.range_succ, List.map_append]
  congr 1
  · apply List.map_congr_left
    intro i hi
    rw [List.mem_range] at hi
    have h1 : w + 1 - 1 - i = (w - 1 - i) + 1 := by omega
    rw [h1, Nat.div_div_eq_div_mul, pow_succ, Nat.mul_comm]
  · simp

theorem bytesToNat_natToBytesBE (w : Nat) :
    ∀ x : Nat, x < 256 ^ w → bytesToNat (natToBytesBE w x) = x := by
  induction w with
  | zero =>
    intro x hx
    have : x = 0 := by simpa using hx
    subst this
    rfl
  | succ w ih =>
    intro x hx
    rw [natToBytesBE_succ, bytesToNat_append_singleton]
    have hlt : x / 256 < 256 ^ w := by
      rw [Nat.div_lt_iff_lt_mul (by norm_num)]
      calc x < 256 ^ (w + 1) := hx
        _ = 256 ^ w * 256 := by rw [pow_succ]
    rw [ih (x / 256) hlt]
    omega

theorem bytesToNat_natToBytes32 (x : Nat) (hx : x < 256 ^ 32) :
    bytesToNat (natToBytes32 x) = x :=
  bytesToNat_natToBytesBE 32 x hx

theorem natToBytes32_length (x : Nat) : (natToBytes32 x).length = 32 :=
  natToBytesBE_length 32 x

theorem natToBytesBE_bytesToNat :
    ∀ l : List Nat, (∀ b ∈ l, b < 256) → natToBytesBE l.length (bytesToNat l) = l := by
  intro l
  induction l using List.reverseRecOn with
  | nil => intro _; rfl
  | append_singleton l b ih =>
    intro hb
    have hbl : ∀ x ∈ l, x < 256 := fun x hx => hb x (List.mem_append_left _ hx)
    have hblt : b < 256 := hb b (List.mem_append_right _ (List.mem_singleton_self b))
    rw [bytesToNat_append_singleton]
    have hlen : (l ++ [b]).length = l.length + 1 := by simp
    rw [hlen, natToBytesBE_succ]
    have hdiv : (256 * bytesToNat l + b) / 256 = bytesToNat l := by
      omega
    have hmod : (256 * bytesToNat l + b) % 256 = b := by
      omega
    rw [hdiv, hmod, ih hbl]

theorem natToBytes32_bytesToNat (l : List Nat) (hlen : l.length = 32)
    (hb : ∀ b ∈ l, b < 256) : natToBytes32 (bytesToNat l) = l := by
  have := natToBytesBE_bytesToNat l hb
  rwa [hlen] at this

theorem natToBytesBE_lt (w x : Nat) : ∀ b ∈ natToBytesBE w x, b < 256 := by
  intro b hb
  simp only [natToBytesBE, List.mem_map] at hb
  obtain ⟨i, _, rfl⟩ := hb
  exact Nat.mod_lt _ (by norm_num)

theorem bytesToNat_lt (l : List Nat) (hb : ∀ b ∈ l, b < 256) :
    bytesToNat l < 256 ^ l.length := by
  induction l using List.reverseRecOn with
  | nil => simp [bytesToNat]
  | append_singleton l b ih =>
    have hbl : ∀ x ∈ l, x < 256 := fun x hx => hb x (List.mem_append_left _ hx)
    have hblt : b < 256 := hb b (List.mem_append_right _ (List.mem_singleton_self b))
    rw [bytesToNat_append_singleton]
    have := ih hbl
    have hlen : (l ++ [b]).length = l.length + 1 := by simp
    rw [hlen, pow_succ]
    omega

/-- Injectivity of the big-endian value on well-formed byte lists of equal
length. -/
theorem bytesToNat_inj (l₁ l₂ : List Nat) (hlen₁ : l₁.length = 32)
    (hlen₂ : l₂.length = 32) (hb₁ : ∀ b ∈ l₁, b < 256) (hb₂ : ∀ b ∈ l₂, b < 256)
    (h : bytesToNat l₁ = bytesToNat l₂) : l₁ = l₂ := by
  have e₁ := natToBytes32_bytesToNat l₁ hlen₁ hb₁
  have e₂ := natToBytes32_bytesToNat l₂ hlen₂ hb₂
  rw [← e₁, ← e₂, h]

/-- One hex digit, lowercase, as produced by `Buffer.toString('hex')`. -/
def hexDigitChar (k : Nat) : Char :=
  if k < 10 then Char.ofNat (48 + k) else Char.ofNat (87 + k)

/-- The two lowercase hex characters of one byte. -/
def byteToHex (b : Nat) : List Char :=
  [hexDigitChar (b / 16 % 16), hexDigitChar (b % 16)]

/-- `Buffer.from(bytes).toString('hex')`: lowercase hex of a byte list. -/
def hexOfBytes (bs : List Nat) : String :=
  String.mk (bs.foldr (fun b acc => byteToHex b ++ acc) [])

theorem hexOfBytes_data (bs : List Nat) :
    (hexOfBytes bs).data = bs.foldr (fun b acc => byteToHex b ++ acc) [] := rfl

theorem hexOfBytes_length (bs : List Nat) :
    (hexOfBytes bs).length = 2 * bs.length := by
  show (String.mk _).length = _
  rw [String.length]
  induction bs with
  | nil => rfl
  | cons b t ih =>
    simp only [List.foldr_cons, List.length_append, List.length_cons]
    simp only [String.length] at ih
    simp [byteToHex] at ih ⊢
    omega

/-- A lowercase hexadecimal digit character. -/
def isLowerHexChar (c : Char) : Bool :=
  (48 ≤ c.toNat && c.toNat ≤ 57) || (97 ≤ c.toNat && c.toNat ≤ 102)

theorem hexDigitChar_isLowerHex (k : Nat) (hk : k < 16) :
    isLowerHexChar (hexDigitChar k) = true := by
  unfold hexDigitChar isLowerHexChar
  interval_cases k <;> decide

theorem hexOfBytes_chars (bs : List Nat) :
    ∀ c ∈ (hexOfBytes bs).data, isLowerHexChar c = true := by
  rw [hexOfBytes_data]
  induction bs with
  | nil => simp
  | cons b t ih =>
    intro c hc
    simp only [List.foldr_cons, List.mem_append] at hc
    rcases hc with hc | hc
    · simp only [byteToHex, List.mem_cons, List.mem_singleton] at hc
      rcases hc with rfl | rfl | h
      · exact hexDigitChar_isLowerHex _ (Nat.mod_lt _ (by norm_num))
      · exact hexDigitChar_isLowerHex _ (Nat.mod_lt _ (by norm_num))
      · cases h
    · exact ih c hc

/-- The keystream XOR of the source: for each `i` below `data.length`,
`out[i] = data[i] ^ key[i % 32]`. -/
def xorKeystream (key data : List Nat) : List Nat :=
  (List.range data.length).map (fun i => data.getD i 0 ^^^ key.getD (i % 32) 0)

theorem xorKeystream_length (key data : List Nat) :
    (xorKeystream key data).length = data.length := by
  simp [xorKeystream]

theorem xorKeystream_getElem (key data : List Nat) (i : Nat)
    (h : i < (xorKeystream key data).length) :
    (xorKeystream key data)[i] =
      data.getD i 0 ^^^ key.getD (i % 32) 0 := by
  simp [xorKeystream]

theorem xorKeystream_getD (key data : List Nat) (i : Nat) (h : i < data.length) :
    (xorKeystream key data).getD i 0 = data.getD i 0 ^^^ key.getD (i % 32) 0 := by
  have hlen : i < (xorKeystream key data).length := by
    rwa [xorKeystream_length]
  rw [List.getD_eq_getElem _ _ hlen, xorKeystream_getElem]

theorem xorKeystream_involutive (key data : List Nat) :
    xorKeystream key (xorKeystream key data) = data := by
  apply List.ext_getElem
  · simp [xorKeystream_length]
  · intro i h₁ h₂
    rw [xorKeystream_getElem]
    rw [xorKeystream_length, xorKeystream_length] at h₁
    rw [xorKeystream_getD key data i h₁]
    rw [List.getD_eq_getElem _ _ h₂]
    rw [Nat.xor_assoc, Nat.xor_self, Nat.xor_zero]

/-- Tampering: XOR the byte at index `j` with `mask` (a single-bit flip when
`mask` is a power of two below 256). -/
def flipAt (l : List Nat) (j mask : Nat) : List Nat :=
  (List.range l.length).map (fun i => if i = j then l.getD i 0 ^^^ mask else l.getD i 0)

theorem flipAt_length (l : List Nat) (j mask : Nat) :
    (flipAt l j mask).length = l.length := by
  simp [flipAt]

theorem flipAt_getElem (l : List Nat) (j mask i : Nat)
    (h : i < (flipAt l j mask).length) :
    (flipAt l j mask)[i] =
      if i = j then l.getD i 0 ^^^ mask else l.getD i 0 := by
  simp [flipAt]

theorem flipAt_getD (l : List Nat) (j mask i : Nat) (h : i < l.length) :
    (flipAt l j mask).getD i 0 =
      if i = j then l.getD i 0 ^^^ mask else l.getD i 0 := by
  have hl : i < (flipAt l j mask).length := by rwa [flipAt_length]
  rw [List.getD_eq_getElem _ _ hl, flipAt_getElem]

theorem xor_ne_self (b mask : Nat) (hm : 0 < mask) : b ^^^ mask ≠ b := by
  intro h
  have : (b ^^^ mask) ^^^ b = 0 := by rw [h, Nat.xor_self]
  rw [Nat.xor_comm b mask, Nat.xor_assoc, Nat.xor_self, Nat.xor_zero] at this
  omega

theorem xorKeystream_flipAt (key d : List Nat) (j mask : Nat) :
    xorKeystream key (flipAt d j mask) = flipAt (xorKeystream key d) j mask := by
  apply List.ext_getElem
  · simp [xorKeystream_length, flipAt_length]
  · intro i h₁ h₂
    have hid : i < d.length := by
      rw [xorKeystream_length, flipAt_length] at h₁
      exact h₁
    rw [xorKeystream_getElem, flipAt_getElem, flipAt_getD _ _ _ _ hid,
      xorKeystream_getD _ _ _ hid]
    by_cases hij : i = j
    · rw [if_pos hij, if_pos hij, Nat.xor_assoc, Nat.xor_assoc,
        Nat.xor_comm mask (key.getD (i % 32) 0)]
    · rw [if_neg hij, if_neg hij]

theorem flipAt_take_of_le (l : List Nat) (j mask k : Nat) (hk : k ≤ j) :
    (flipAt l j mask).take k = l.take k := by
  apply List.ext_getElem
  · simp [flipAt_length]
  · intro i h₁ h₂
    have hil : i < l.length := by
      simp only [List.length_take, flipAt_length] at h₁
      omega
    have hik : i < k := by
      simp only [List.length_take, flipAt_length] at h₁
      omega
    rw [List.getElem_take, List.getElem_take, flipAt_getElem,
      if_neg (by omega : ¬ i = j), List.getD_eq_getElem _ _ hil]

theorem flipAt_take_of_lt (l : List Nat) (j mask k : Nat) (hj : j < k) :
    (flipAt l j mask).take k = flipAt (l.take k) j mask := by
  apply List.ext_getElem
  · simp [flipAt_length]
  · intro i h₁ h₂
    have hil : i < l.length := by
      simp only [List.length_take, flipAt_length] at h₁
      omega
    have hik : i < k := by
      simp only [List.length_take, flipAt_length] at h₁
      omega
    have hit : i < (l.take k).length := by
      simp only [List.length_take]
      omega
    rw [List.getElem_take, flipAt_getElem, flipAt_getElem]
    have hgd : (l.take k).getD i 0 = l.getD i 0 := by
      rw [List.getD_eq_getElem _ _ hit, List.getD_eq_getElem _ _ hil,
        List.getElem_take]
    rw [hgd]

theorem flipAt_drop_of_lt (l : List Nat) (j mask k : Nat) (hj : j < k) :
    (flipAt l j mask).drop k = l.drop k := by
  apply List.ext_getElem
  · simp [flipAt_length]
  · intro i h₁ h₂
    have hil : k + i < l.length := by
      simp only [List.length_drop, flipAt_length] at h₁
      omega
    rw [List.getElem_drop, List.getElem_drop, flipAt_getElem,
      if_neg (by omega : ¬ k + i = j), List.getD_eq_getElem _ _ hil]

theorem flipAt_drop_of_le (l : List Nat) (j mask k : Nat) (hk : k ≤ j) :
    (flipAt l j mask).drop k = flipAt (l.drop k) (j - k) mask := by
  apply List.ext_getElem
  · simp [flipAt_length]
  · intro i h₁ h₂
    have hil : k + i < l.length := by
      simp only [List.length_drop, flipAt_length] at h₁
      omega
    have hid : i < (l.drop k).length := by
      simp only [List.length_drop]
      omega
    rw [List.getElem_drop, flipAt_getElem, flipAt_getElem]
    have hgd : (l.drop k).getD i 0 = l.getD (k + i) 0 := by
      rw [List.getD_eq_getElem _ _ hid, List.getD_eq_getElem _ _ hil,
        List.getElem_drop]
    rw [hgd]
    by_cases hij : k + i = j
    · rw [if_pos hij, if_pos (by omega : i = j - k)]
    · rw [if_neg hij, if_neg (by omega : ¬ i = j - k)]

theorem flipAt_ne (l : List Nat) (j mask : Nat) (hj : j < l.length)
    (hm : 0 < mask) : flipAt l j mask ≠ l := by
  intro h
  have hjf : j < (flipAt l j mask).length := by rwa [flipAt_length]
  have := congrArg (fun t => t.getD j 0) h
  simp only at this
  rw [flipAt_getD _ _ _ _ hj, if_pos rfl] at this
  exact xor_ne_self _ mask hm this

theorem flipAt_bytes_lt (l : List Nat) (j mask : Nat) (hmask : mask < 256)
    (hl : ∀ b ∈ l, b < 256) : ∀ b ∈ flipAt l j mask, b < 256 := by
  intro b hb
  simp only [flipAt, List.mem_map, List.mem_range] at hb
  obtain ⟨i, hi, rfl⟩ := hb
  have hil : l.getD i 0 < 256 := by
    rw [List.getD_eq_getElem _ _ hi]
    exact hl _ (List.getElem_mem hi)
  by_cases hij : i = j
  · rw [if_pos hij]
    have h8 : l.getD i 0 ^^^ mask < 2 ^ 8 :=
      Nat.xor_lt_two_pow (by omega) (by omega)
    exact lt_of_lt_of_eq h8 (by norm_num)
  · rw [if_neg hij]
    exact hil

/-- Error kinds surfaced by the library.  `badKeyFormat` stands for the
`'Unsupported key format'` throw of `to32u8`, base58 decode errors, and every
invalid-scalar / invalid-point throw coming out of `@noble/secp256k1` or the
Aptos SDK; `decryptionFailure` is the
`'Decryption failed – ephemeral public key mismatch'` throw of
`decryptEphemeralPrivKey`. -/
inductive CoreErr where
  | badKeyFormat
  | decryptionFailure
deriving DecidableEq

instance instDecEqExcept {ε α : Type} [DecidableEq ε] [DecidableEq α] :
    DecidableEq (Except ε α) := fun x y =>
  match x, y with
  | .ok a, .ok b =>
    if h : a = b then isTrue (by rw [h])
    else isFalse (by intro hc; cases hc; exact h rfl)
  | .error a, .error b =>
    if h : a = b then isTrue (by rw [h])
    else isFalse (by intro hc; cases hc; exact h rfl)
  | .ok _, .error _ => isFalse (by intro hc; cases hc)
  | .error _, .ok _ => isFalse (by intro hc; cases hc)

/-- The dynamic input shapes accepted by `to32u8`: a `Uint8Array`, a JS
string, an object shaped `{type:'Buffer', data:[...]}`, and any other
value. -/
inductive KeyInput where
  | bytes (b : List Nat)
  | str (s : String)
  | buf (data : List Nat)
  | other
deriving DecidableEq

/-- `/^[0-9a-f]{64}$/i.test(s)`: exactly 64 characters, all hex digits of
either case. -/
def isHexDigitAnyCase (c : Char) : Bool :=
  (48 ≤ c.toNat && c.toNat ≤ 57) || (97 ≤ c.toNat && c.toNat ≤ 102) ||
    (65 ≤ c.toNat && c.toNat ≤ 70)

def isHex64 (s : String) : Bool :=
  s.length = 64 && s.data.all isHexDigitAnyCase

/-- Numeric value of one hex digit character (either case). -/
def hexVal (c : Char) : Nat :=
  if c.toNat ≤ 57 then c.toNat - 48
  else if c.toNat ≤ 70 then c.toNat - 55
  else c.toNat - 87

/-- `Buffer.from(s, 'hex')`: consume the characters in pairs. -/
def hexPairsToBytes : List Char → List Nat
  | c₁ :: c₂ :: rest => (hexVal c₁ * 16 + hexVal c₂) :: hexPairsToBytes rest
  | _ => []

/-- `PivyStealthAptos.to32u8` (line 459): `Uint8Array` inputs are returned
as-is; 64-char hex strings are hex-decoded; every other string is base58
decoded (whatever the decoded length); `{type:'Buffer'}` objects are rebuilt
from their `data` field (each entry wrapped to a byte by `Uint8Array.from`);
anything else throws `'Unsupported key format'`.  The base58 decoder of the
`bs58` package is the explicit parameter `b58dec`; it returns `none` exactly
when the string contains a character outside the base58 alphabet. -/
def to32u8 (b58dec : String → Option (List Nat)) : KeyInput → Except CoreErr (List Nat)
  | .bytes b => .ok b
  | .str s =>
    if isHex64 s then .ok (hexPairsToBytes s.data)
    else
      match b58dec s with
      | some b => .ok b
      | none => .error .badKeyFormat
  | .buf data => .ok (data.map (fun b => b % 256))
  | .other => .error .badKeyFormat

section Model

variable {Point : Type} [AddCommGroup Point] [DecidableEq Point]

/-- `@noble/secp256k1`'s `getPublicKey(priv, true)`: the private key must be
32 bytes whose big-endian value lies in `[1, n)`; the result is the
compressed serialization of `priv·G`.  `toBytesC` stands for noble's
compressed SEC1 serialization `toRawBytes(true)` and `G`, `n` for the
secp256k1 generator and group order. -/
def getPublicKey (G : Point) (n : Nat) (toBytesC : Point → List Nat)
    (priv : List Nat) : Except CoreErr (List Nat) :=
  let x := bytesToNat priv
  if priv.length = 32 ∧ 0 < x ∧ x < n then .ok (toBytesC (x • G))
  else .error .badKeyFormat

/-- `@noble/secp256k1`'s `getSharedSecret(priv, pub, true)`: validate the
scalar, parse the compressed point (`parsePoint` stands for noble's
`Point.fromHex`), and return the compressed serialization of the shared
point `priv·pub`, which must not be the point at infinity. -/
def getSharedSecret (n : Nat) (toBytesC : Point → List Nat)
    (parsePoint : List Nat → Option Point)
    (priv pub : List Nat) : Except CoreErr (List Nat) :=
  let x := bytesToNat priv
  if priv.length = 32 ∧ 0 < x ∧ x < n then
    match parsePoint pub with
    | some P => if x • P = 0 then .error .badKeyFormat else .ok (toBytesC (x • P))
    | none => .error .badKeyFormat
  else .error .badKeyFormat

/-- `PivyStealthAptos.secp256k1PointToAptosAddress` (line 485): decompress
the 33-byte public key (`toBytesU` stands for noble's uncompressed
serialization `toRawBytes(false)`), build
`0x01 ‖ 0x41 ‖ uncompressed ‖ 0x02`, hash with SHA3-256 (`sha3`), and render
as `'0x' +` lowercase hex. -/
def secp256k1PointToAptosAddress (toBytesU : Point → List Nat)
    (parsePoint : List Nat → Option Point) (sha3 : List Nat → List Nat)
    (point : List Nat) : Except CoreErr String :=
  match parsePoint point with
  | some P => .ok ("0x" ++ hexOfBytes (sha3 (1 :: 65 :: (toBytesU P ++ [2]))))
  | none => .error .badKeyFormat

/-- Modelled from the spec: the Aptos SDK address derivation used by
`deriveStealthKeypair` through `Account.fromPrivateKey` and
`account.accountAddress.toString()`.  The SDK code is not part of this
repository; spec §4.2 states normatively that the address is
`SHA3-256(0x01 ‖ 0x41 ‖ uncompressed_pubkey ‖ 0x02)` rendered as
`0x`-prefixed lowercase hex, bit-matching `secp256k1PointToAptosAddress`. -/
def sdkAccountAddress (G : Point) (n : Nat) (toBytesU : Point → List Nat)
    (sha3 : List Nat → List Nat) (priv : List Nat) : Except CoreErr String :=
  let x := bytesToNat priv
  if priv.length = 32 ∧ 0 < x ∧ x < n then
    .ok ("0x" ++ hexOfBytes (sha3 (1 :: 65 :: (toBytesU (x • G) ++ [2]))))
  else .error .badKeyFormat

/-- `PivyStealthAptos.encryptNote` (line 607) on the UTF-8 bytes `m` of the
plaintext, with the 24 random nonce bytes passed explicitly: derive
`K = SHA-256(sharedSecret[1..])`, XOR-encrypt, prepend the nonce. -/
def encryptNote (n : Nat) (toBytesC : Point → List Nat)
    (parsePoint : List Nat → Option Point) (sha256 : List Nat → List Nat)
    (nonce m ephPriv metaViewPub : List Nat) : Except CoreErr (List Nat) :=
  match getSharedSecret n toBytesC parsePoint ephPriv metaViewPub with
  | .error e => .error e
  | .ok shared =>
    let keyBytes := sha256 (shared.drop 1)
    .ok (nonce ++ xorKeystream keyBytes m)

/-- `PivyStealthAptos.decryptNote` (line 644): skip the 24-byte nonce,
derive the same key from `(metaViewPriv, ephPub)`, XOR-decrypt.  The final
`TextDecoder().decode` is modelled as the identity on the byte level. -/
def decryptNote (n : Nat) (toBytesC : Point → List Nat)
    (parsePoint : List Nat → Option Point) (sha256 : List Nat → List Nat)
    (encryptedBytes metaViewPriv ephPub : List Nat) : Except CoreErr (List Nat) :=
  match getSharedSecret n toBytesC parsePoint metaViewPriv ephPub with
  | .error e => .error e
  | .ok shared =>
    let keyBytes := sha256 (shared.drop 1)
    .ok (xorKeystream keyBytes (encryptedBytes.drop 24))

/-- `PivyStealthAptos.encryptEphemeralPrivKey` (line 526): the plaintext is
`ephPriv ‖ getPublicKey(ephPriv)`; XOR-encrypt, prepend the nonce, base58
encode (`b58enc` stands for `bs58.encode`). -/
def encryptEphemeralPrivKey (G : Point) (n : Nat) (toBytesC : Point → List Nat)
    (parsePoint : List Nat → Option Point) (sha256 : List Nat → List Nat)
    (b58enc : List Nat → String)
    (nonce ephPriv metaViewPub : List Nat) : Except CoreErr String :=
  match getSharedSecret n toBytesC parsePoint ephPriv metaViewPub with
  | .error e => .error e
  | .ok shared =>
    let keyBytes := sha256 (shared.drop 1)
    match getPublicKey G n toBytesC ephPriv with
    | .error e => .error e
    | .ok ephPub =>
      let plain := ephPriv ++ ephPub
      .ok (b58enc (nonce ++ xorKeystream keyBytes plain))

/-- `PivyStealthAptos.decryptEphemeralPrivKey` (line 566): base58 decode,
skip the nonce, XOR-decrypt, split at byte 32, recompute the public key from
the recovered private key and compare it against the trailing bytes
(`computedPub.every((b, i) => b === receivedPub[i])`, i.e. `computedPub`
must coincide with the first `computedPub.length` entries of
`receivedPub`). -/
def decryptEphemeralPrivKey (G : Point) (n : Nat) (toBytesC : Point → List Nat)
    (parsePoint : List Nat → Option Point) (sha256 : List Nat → List Nat)
    (b58dec : String → Option (List Nat))
    (encodedPayload : String) (metaViewPriv ephPub : List Nat) :
    Except CoreErr (List Nat) :=
  match b58dec encodedPayload with
  | none => .error .badKeyFormat
  | some payload =>
    let encrypted := payload.drop 24
    match getSharedSecret n toBytesC parsePoint metaViewPriv ephPub with
    | .error e => .error e
    | .ok shared =>
      let keyBytes := sha256 (shared.drop 1)
      let dec := xorKeystream keyBytes encrypted
      let ephPriv32 := dec.take 32
      let receivedPub := dec.drop 32
      match getPublicKey G n toBytesC ephPriv32 with
      | .error e => .error e
      | .ok computedPub =>
        if receivedPub.take computedPub.length = computedPub then .ok ephPriv32
        else .error .decryptionFailure

/-- Result record of `deriveStealthPub`. -/
structure StealthPubResult where
  stealthPubKeyB58 : String
  stealthAptosAddress : String
  stealthPubKeyBytes : List Nat
deriving DecidableEq

/-- `PivyStealthAptos.deriveStealthPub` (line 694): tweak from the ECDH of
`(ephPriv, metaViewPub)`; `Point.BASE.multiply(tweakScalar)` (which throws
unless `0 < tweakScalar < n`); stealth point `metaSpendPub + tweak·G`
(serialization throws at the point at infinity); address via
`secp256k1PointToAptosAddress`. -/
def deriveStealthPub (G : Point) (n : Nat) (toBytesC toBytesU : Point → List Nat)
    (parsePoint : List Nat → Option Point) (sha256 sha3 : List Nat → List Nat)
    (b58enc : List Nat → String)
    (metaSpendPub metaViewPub ephPriv : List Nat) :
    Except CoreErr StealthPubResult :=
  match getSharedSecret n toBytesC parsePoint ephPriv metaViewPub with
  | .error e => .error e
  | .ok shared =>
    let tweak := sha256 (shared.drop 1)
    let tweakScalar := bytesToNat tweak % n
    if 0 < tweakScalar then
      match parsePoint metaSpendPub with
      | none => .error .badKeyFormat
      | some metaSpendPoint =>
        let stealthPoint := metaSpendPoint + tweakScalar • G
        if stealthPoint = 0 then .error .badKeyFormat
        else
          match secp256k1PointToAptosAddress toBytesU parsePoint sha3
              (toBytesC stealthPoint) with
          | .error e => .error e
          | .ok addr =>
            .ok ⟨b58enc (toBytesC stealthPoint), addr, toBytesC stealthPoint⟩
    else .error .badKeyFormat

/-- Result record of `deriveStealthKeypair` (the `account` object is carried
only through its observable parts: address, raw private key, and the public
key bytes exposed by `publicKeyBase58`). -/
structure StealthKeypairResult where
  stealthAddress : String
  privateKey : List Nat
  stealthPubKeyBytes : List Nat
deriving DecidableEq

/-- `PivyStealthAptos.deriveStealthKeypair` (line 753): same tweak from the
ECDH of `(metaViewPriv, ephPub)`; `stealthPriv = (metaSpendPriv + tweak)
mod n` rebuilt as 32 big-endian bytes; public key via noble; address via
the Aptos SDK (`sdkAccountAddress`). -/
def deriveStealthKeypair (G : Point) (n : Nat) (toBytesC toBytesU : Point → List Nat)
    (parsePoint : List Nat → Option Point) (sha256 sha3 : List Nat → List Nat)
    (metaSpendPriv metaViewPriv ephPub : List Nat) :
    Except CoreErr StealthKeypairResult :=
  match getSharedSecret n toBytesC parsePoint metaViewPriv ephPub with
  | .error e => .error e
  | .ok shared =>
    let tweak := sha256 (shared.drop 1)
    let tweakScalar := bytesToNat tweak % n
    let metaSpendScalar := bytesToNat metaSpendPriv % n
    let stealthPrivScalar := (metaSpendScalar + tweakScalar) % n
    let stealthPrivBytes := natToBytes32 stealthPrivScalar
    match getPublicKey G n toBytesC stealthPrivBytes with
    | .error e => .error e
    | .ok stealthPubKeyBytes =>
      match sdkAccountAddress G n toBytesU sha3 stealthPrivBytes with
      | .error e => .error e
      | .ok stealthAddress =>
        .ok ⟨stealthAddress, stealthPrivBytes, stealthPubKeyBytes⟩

end Model

section ModelLemmas

variable {Point : Type} [AddCommGroup Point] [DecidableEq Point]

/-- Reduction modulo the group order is invisible on multiples of a
generator annihilated by `n`. -/
theorem mod_nsmul_eq (G : Point) (n : Nat) (hnG : n • G = 0) (a : Nat) :
    (a % n) • G = a • G := by
  conv_rhs => rw [← Nat.div_add_mod a n]
  rw [add_nsmul, mul_nsmul, hnG, smul_zero, zero_add]

theorem nsmul_swap (a b : Nat) (G : Point) : a • (b • G) = b • (a • G) := by
  rw [smul_smul, smul_smul, Nat.mul_comm]

theorem getPublicKey_ok (G : Point) (n : Nat) (toBytesC : Point → List Nat)
    {x : Nat} (hx : 0 < x) (hxn : x < n) (hn : n ≤ 256 ^ 32) :
    getPublicKey G n toBytesC (natToBytes32 x) = .ok (toBytesC (x • G)) := by
  have hv : bytesToNat (natToBytes32 x) = x :=
    bytesToNat_natToBytes32 x (lt_of_lt_of_le hxn hn)
  simp [getPublicKey, hv, hx, hxn, natToBytes32_length]

theorem getSharedSecret_ok (n : Nat) (toBytesC : Point → List Nat)
    (parsePoint : List Nat → Option Point) {x : Nat} (hx : 0 < x) (hxn : x < n)
    (hn : n ≤ 256 ^ 32) {pub : List Nat} {P : Point}
    (hp : parsePoint pub = some P) (hnz : x • P ≠ 0) :
    getSharedSecret n toBytesC parsePoint (natToBytes32 x) pub =
      .ok (toBytesC (x • P)) := by
  have hv : bytesToNat (natToBytes32 x) = x :=
    bytesToNat_natToBytes32 x (lt_of_lt_of_le hxn hn)
  simp [getSharedSecret, hv, hp, hnz, hx, hxn, natToBytes32_length]

theorem deriveStealthPub_eval (G : Point) (n : Nat)
    (toBytesC toBytesU : Point → List Nat) (parsePoint : List Nat → Option Point)
    (sha256 sha3 : List Nat → List Nat) (b58enc : List Nat → String)
    {e : Nat} (he : 0 < e) (hen : e < n) (hn : n ≤ 256 ^ 32)
    {Vb Sb : List Nat} {Vpt Spt : Point}
    (hV : parsePoint Vb = some Vpt) (hS : parsePoint Sb = some Spt)
    (hnz : e • Vpt ≠ 0)
    (ht : 0 < bytesToNat (sha256 ((toBytesC (e • Vpt)).drop 1)) % n)
    (hst : Spt + (bytesToNat (sha256 ((toBytesC (e • Vpt)).drop 1)) % n) • G ≠ 0)
    (hpc : parsePoint (toBytesC
      (Spt + (bytesToNat (sha256 ((toBytesC (e • Vpt)).drop 1)) % n) • G)) =
      some (Spt + (bytesToNat (sha256 ((toBytesC (e • Vpt)).drop 1)) % n) • G)) :
    deriveStealthPub G n toBytesC toBytesU parsePoint sha256 sha3 b58enc
      Sb Vb (natToBytes32 e) =
    .ok ⟨b58enc (toBytesC
          (Spt + (bytesToNat (sha256 ((toBytesC (e • Vpt)).drop 1)) % n) • G)),
        "0x" ++ hexOfBytes (sha3 (1 :: 65 :: (toBytesU
          (Spt + (bytesToNat (sha256 ((toBytesC (e • Vpt)).drop 1)) % n) • G) ++ [2]))),
        toBytesC
          (Spt + (bytesToNat (sha256 ((toBytesC (e • Vpt)).drop 1)) % n) • G)⟩ := by
  rw [List.drop_one] at ht hst hpc
  simp [deriveStealthPub,
    getSharedSecret_ok n toBytesC parsePoint he hen hn hV hnz,
    secp256k1PointToAptosAddress, hS, ht, hst, hpc]

theorem deriveStealthKeypair_eval (G : Point) (n : Nat)
    (toBytesC toBytesU : Point → List Nat) (parsePoint : List Nat → Option Point)
    (sha256 sha3 : List Nat → List Nat)
    {v : Nat} (hv : 0 < v) (hvn : v < n) (hn : n ≤ 256 ^ 32)
    {Eb sb : List Nat} {Ept : Point}
    (hE : parsePoint Eb = some Ept) (hnz : v • Ept ≠ 0)
    (hk : 0 < (bytesToNat sb % n +
        bytesToNat (sha256 ((toBytesC (v • Ept)).drop 1)) % n) % n) :
    deriveStealthKeypair G n toBytesC toBytesU parsePoint sha256 sha3
      sb (natToBytes32 v) Eb =
    .ok ⟨"0x" ++ hexOfBytes (sha3 (1 :: 65 :: (toBytesU
          (((bytesToNat sb % n +
            bytesToNat (sha256 ((toBytesC (v • Ept)).drop 1)) % n) % n) • G) ++ [2]))),
        natToBytes32 ((bytesToNat sb % n +
          bytesToNat (sha256 ((toBytesC (v • Ept)).drop 1)) % n) % n),
        toBytesC (((bytesToNat sb % n +
          bytesToNat (sha256 ((toBytesC (v • Ept)).drop 1)) % n) % n) • G)⟩ := by
  have hkn : (bytesToNat sb % n +
      bytesToNat (sha256 ((toBytesC (v • Ept)).drop 1)) % n) % n < n :=
    Nat.mod_lt _ (lt_trans hv hvn)
  have hval : bytesToNat (natToBytes32 ((bytesToNat sb % n +
      bytesToNat (sha256 ((toBytesC (v • Ept)).drop 1)) % n) % n)) =
      (bytesToNat sb % n +
      bytesToNat (sha256 ((toBytesC (v • Ept)).drop 1)) % n) % n :=
    bytesToNat_natToBytes32 _ (lt_of_lt_of_le hkn hn)
  simp only [List.drop_one, Nat.mod_add_mod, Nat.add_mod_mod] at hk hkn hval
  simp [deriveStealthKeypair,
    getSharedSecret_ok n toBytesC parsePoint hv hvn hn hE hnz,
    getPublicKey_ok G n toBytesC hk hkn hn,
    sdkAccountAddress, hval, hk, hkn, natToBytes32_length]

end ModelLemmas

/- A small concrete instance of the abstract curve model, used by the
witnesses: the group `ZMod 5` with generator `1` and order `5`, injective
33- and 65-byte serializations, and fixed hash outputs. -/
namespace W

def toC (p : ZMod 5) : List Nat := p.val :: List.replicate 32 0

def toU (p : ZMod 5) : List Nat := List.replicate 64 0 ++ [p.val]

def parseC (l : List Nat) : Option (ZMod 5) :=
  match l with
  | b :: _ => if b < 5 then some (b : ZMod 5) else none
  | [] => none

def sha256c (_ : List Nat) : List Nat := List.replicate 32 1

def sha3c (_ : List Nat) : List Nat := List.replicate 32 171

def b58c (_ : List Nat) : String := "b58blob"

end W

section StealthPair

variable {Point : Type} [AddCommGroup Point] [DecidableEq Point]

/-- Both stealth derivations evaluated to explicit results, expressed through
the common value `k = (s + T) mod n` with `T` the shared tweak scalar. -/
theorem stealth_pair_eval (G : Point) (n : Nat)
    (toBytesC toBytesU : Point → List Nat) (parsePoint : List Nat → Option Point)
    (sha256 sha3 : List Nat → List Nat) (b58enc : List Nat → String)
    (hnG : n • G = 0) (hn : n ≤ 256 ^ 32)
    (hord : ∀ a : Nat, a < n → 0 < a → a • G ≠ 0)
    (hparse : ∀ p : Point, parsePoint (toBytesC p) = some p)
    (s v e : Nat) (hsn : s < n) (hv : 0 < v) (hvn : v < n)
    (he : 0 < e) (hen : e < n)
    (hev : (e * v) % n ≠ 0)
    (T k : Nat)
    (hT : T = bytesToNat (sha256 ((toBytesC ((e * v) • G)).drop 1)) % n)
    (hkdef : k = (s + T) % n)
    (ht : 0 < T) (hk : 0 < k) :
    deriveStealthPub G n toBytesC toBytesU parsePoint sha256 sha3 b58enc
      (toBytesC (s • G)) (toBytesC (v • G)) (natToBytes32 e) =
      .ok ⟨b58enc (toBytesC (k • G)),
          "0x" ++ hexOfBytes (sha3 (1 :: 65 :: (toBytesU (k • G) ++ [2]))),
          toBytesC (k • G)⟩ ∧
    deriveStealthKeypair G n toBytesC toBytesU parsePoint sha256 sha3
      (natToBytes32 s) (natToBytes32 v) (toBytesC (e • G)) =
      .ok ⟨"0x" ++ hexOfBytes (sha3 (1 :: 65 :: (toBytesU (k • G) ++ [2]))),
          natToBytes32 k, toBytesC (k • G)⟩ := by
  have npos : 0 < n := lt_trans he hen
  have hq : e • (v • G) = (e * v) • G := smul_smul e v G
  have hq2 : v • (e • G) = (e * v) • G := by rw [smul_smul, Nat.mul_comm]
  have hnz : e • (v • G) ≠ 0 := by
    rw [hq, ← mod_nsmul_eq G n hnG]
    exact hord _ (Nat.mod_lt _ npos) (Nat.pos_of_ne_zero hev)
  have hnz2 : v • (e • G) ≠ 0 := by rw [hq2, ← hq]; exact hnz
  have hkG : ((s + T) % n) • G = s • G + T • G := by
    rw [mod_nsmul_eq G n hnG, add_nsmul]
  have hsval : bytesToNat (natToBytes32 s) = s :=
    bytesToNat_natToBytes32 s (lt_of_lt_of_le hsn hn)
  constructor
  · have ht' : 0 < bytesToNat (sha256 ((toBytesC (e • (v • G))).drop 1)) % n := by
      rw [hq, ← hT]; exact ht
    have hst : s • G +
        (bytesToNat (sha256 ((toBytesC (e • (v • G))).drop 1)) % n) • G ≠ 0 := by
      rw [hq, ← hT, ← hkG, ← hkdef]
      exact hord _ (hkdef ▸ Nat.mod_lt _ npos) hk
    have hres := deriveStealthPub_eval G n toBytesC toBytesU parsePoint sha256 sha3
      b58enc he hen hn (hparse (v • G)) (hparse (s • G)) hnz ht' hst
      (by rw [hq, ← hT, ← hkG, ← hkdef]; exact hparse (k • G))
    rw [hq, ← hT, ← hkG, ← hkdef] at hres
    exact hres
  · have hk' : 0 < (bytesToNat (natToBytes32 s) % n +
        bytesToNat (sha256 ((toBytesC (v • (e • G))).drop 1)) % n) % n := by
      rw [hq2, ← hT, hsval, Nat.mod_eq_of_lt hsn, ← hkdef]
      exact hk
    have hres := deriveStealthKeypair_eval G n toBytesC toBytesU parsePoint
      sha256 sha3 hv hvn hn (hparse (e • G)) hnz2 hk'
    rw [hq2, ← hT, hsval, Nat.mod_eq_of_lt hsn, ← hkdef] at hres
    rw [hkdef, hkG] at hres
    rw [hkdef, hkG]
    exact hres

end StealthPair

section Claims12

variable {Point : Type} [AddCommGroup Point] [DecidableEq Point]

/-- Claim C1: for every valid receiver meta keypairs `(s, S)` and `(v, V)`
and every valid ephemeral keypair `(e, E)` — validity meaning scalars in
`[1, n)`, a nonzero ECDH shared point, a nonzero tweak and a nonzero stealth
scalar, the cases the code itself rejects — the payer-side derivation
`deriveStealthPub(S, V, e)` and the receiver-side derivation
`deriveStealthKeypair(s, v, E)` produce the same compressed stealth public
key bytes and the same Aptos stealth address string. -/
theorem claim_C1_stealth_roundtrip (G : Point) (n : Nat)
    (toBytesC toBytesU : Point → List Nat) (parsePoint : List Nat → Option Point)
    (sha256 sha3 : List Nat → List Nat) (b58enc : List Nat → String)
    (hnG : n • G = 0) (hn : n ≤ 256 ^ 32)
    (hord : ∀ a : Nat, a < n → 0 < a → a • G ≠ 0)
    (hparse : ∀ p : Point, parsePoint (toBytesC p) = some p)
    (s v e : Nat) (hs : 0 < s) (hsn : s < n) (hv : 0 < v) (hvn : v < n)
    (he : 0 < e) (hen : e < n) (hev : (e * v) % n ≠ 0)
    (T k : Nat)
    (hT : T = bytesToNat (sha256 ((toBytesC ((e * v) • G)).drop 1)) % n)
    (hkdef : k = (s + T) % n) (ht : 0 < T) (hk : 0 < k) :
    ∃ pr kr,
      deriveStealthPub G n toBytesC toBytesU parsePoint sha256 sha3 b58enc
        (toBytesC (s • G)) (toBytesC (v • G)) (natToBytes32 e) = .ok pr ∧
      deriveStealthKeypair G n toBytesC toBytesU parsePoint sha256 sha3
        (natToBytes32 s) (natToBytes32 v) (toBytesC (e • G)) = .ok kr ∧
      kr.stealthPubKeyBytes = pr.stealthPubKeyBytes ∧
      kr.stealthAddress = pr.stealthAptosAddress := by
  obtain ⟨h1, h2⟩ := stealth_pair_eval G n toBytesC toBytesU parsePoint sha256
    sha3 b58enc hnG hn hord hparse s v e hsn hv hvn he hen hev T k hT hkdef ht hk
  exact ⟨_, _, h1, h2, rfl, rfl⟩

/-- Witness for C1 at the concrete `ZMod 5` instance with
`s = v = e = 1`, tweak `T = 2` and stealth scalar `k = 3`. -/
theorem claim_C1_witness :
    ∃ pr kr,
      deriveStealthPub (1 : ZMod 5) 5 W.toC W.toU W.parseC W.sha256c W.sha3c W.b58c
        (W.toC ((1 : Nat) • (1 : ZMod 5))) (W.toC ((1 : Nat) • (1 : ZMod 5)))
        (natToBytes32 1) = .ok pr ∧
      deriveStealthKeypair (1 : ZMod 5) 5 W.toC W.toU W.parseC W.sha256c W.sha3c
        (natToBytes32 1) (natToBytes32 1) (W.toC ((1 : Nat) • (1 : ZMod 5))) = .ok kr ∧
      kr.stealthPubKeyBytes = pr.stealthPubKeyBytes ∧
      kr.stealthAddress = pr.stealthAptosAddress :=
  claim_C1_stealth_roundtrip (1 : ZMod 5) 5 W.toC W.toU W.parseC W.sha256c
    W.sha3c W.b58c (by decide) (by decide) (by decide) (by decide) 1 1 1
    (by decide) (by decide) (by decide) (by decide) (by decide) (by decide)
    (by decide) 2 3 (by decide) (by decide) (by decide) (by decide)

/-- Claim C2: under the same validity conditions, the secp256k1 public key
derived from the 32-byte private key returned by
`deriveStealthKeypair(s, v, E)` equals the stealth public key returned by
`deriveStealthPub(S, V, e)` bit-for-bit. -/
theorem claim_C2_sign_consistency (G : Point) (n : Nat)
    (toBytesC toBytesU : Point → List Nat) (parsePoint : List Nat → Option Point)
    (sha256 sha3 : List Nat → List Nat) (b58enc : List Nat → String)
    (hnG : n • G = 0) (hn : n ≤ 256 ^ 32)
    (hord : ∀ a : Nat, a < n → 0 < a → a • G ≠ 0)
    (hparse : ∀ p : Point, parsePoint (toBytesC p) = some p)
    (s v e : Nat) (hs : 0 < s) (hsn : s < n) (hv : 0 < v) (hvn : v < n)
    (he : 0 < e) (hen : e < n) (hev : (e * v) % n ≠ 0)
    (T k : Nat)
    (hT : T = bytesToNat (sha256 ((toBytesC ((e * v) • G)).drop 1)) % n)
    (hkdef : k = (s + T) % n) (ht : 0 < T) (hk : 0 < k) :
    ∃ pr kr,
      deriveStealthPub G n toBytesC toBytesU parsePoint sha256 sha3 b58enc
        (toBytesC (s • G)) (toBytesC (v • G)) (natToBytes32 e) = .ok pr ∧
      deriveStealthKeypair G n toBytesC toBytesU parsePoint sha256 sha3
        (natToBytes32 s) (natToBytes32 v) (toBytesC (e • G)) = .ok kr ∧
      getPublicKey G n toBytesC kr.privateKey = .ok pr.stealthPubKeyBytes := by
  obtain ⟨h1, h2⟩ := stealth_pair_eval G n toBytesC toBytesU parsePoint sha256
    sha3 b58enc hnG hn hord hparse s v e hsn hv hvn he hen hev T k hT hkdef ht hk
  refine ⟨_, _, h1, h2, ?_⟩
  have npos : 0 < n := lt_trans he hen
  have hkn : k < n := hkdef ▸ Nat.mod_lt _ npos
  show getPublicKey G n toBytesC (natToBytes32 k) = .ok (toBytesC (k • G))
  exact getPublicKey_ok G n toBytesC hk hkn hn

/-- Witness for C2 at the concrete `ZMod 5` instance. -/
theorem claim_C2_witness :
    ∃ pr kr,
      deriveStealthPub (1 : ZMod 5) 5 W.toC W.toU W.parseC W.sha256c W.sha3c W.b58c
        (W.toC ((1 : Nat) • (1 : ZMod 5))) (W.toC ((1 : Nat) • (1 : ZMod 5)))
        (natToBytes32 1) = .ok pr ∧
      deriveStealthKeypair (1 : ZMod 5) 5 W.toC W.toU W.parseC W.sha256c W.sha3c
        (natToBytes32 1) (natToBytes32 1) (W.toC ((1 : Nat) • (1 : ZMod 5))) = .ok kr ∧
      getPublicKey (1 : ZMod 5) 5 W.toC kr.privateKey = .ok pr.stealthPubKeyBytes :=
  claim_C2_sign_consistency (1 : ZMod 5) 5 W.toC W.toU W.parseC W.sha256c
    W.sha3c W.b58c (by decide) (by decide) (by decide) (by decide) 1 1 1
    (by decide) (by decide) (by decide) (by decide) (by decide) (by decide)
    (by decide) 2 3 (by decide) (by decide) (by decide) (by decide)

end Claims12

section Claim3

variable {Point : Type} [AddCommGroup Point] [DecidableEq Point]

/-- Claim C3: for every 33-byte compressed secp256k1 public key that decodes
to a valid curve point, `secp256k1PointToAptosAddress` returns SHA3-256 of
the 68-byte layout `0x01 ‖ 0x41 ‖ uncompressed(65) ‖ 0x02`, serialized as
`'0x'` followed by exactly 64 lowercase hex digits, and it is deterministic
(equal input bytes give equal addresses, the function being pure). -/
theorem claim_C3_aptos_address (toBytesU : Point → List Nat)
    (parsePoint : List Nat → Option Point) (sha3 : List Nat → List Nat)
    (pb : List Nat) (P : Point) (hp : parsePoint pb = some P)
    (h65 : (toBytesU P).length = 65)
    (h32 : (sha3 (1 :: 65 :: (toBytesU P ++ [2]))).length = 32) :
    ∃ a : String,
      secp256k1PointToAptosAddress toBytesU parsePoint sha3 pb = .ok a ∧
      a = "0x" ++ hexOfBytes (sha3 (1 :: 65 :: (toBytesU P ++ [2]))) ∧
      (1 :: 65 :: (toBytesU P ++ [2])).length = 68 ∧
      a.length = 66 ∧
      a.data.take 2 = ['0', 'x'] ∧
      (a.data.drop 2).length = 64 ∧
      (∀ c ∈ a.data.drop 2, isLowerHexChar c = true) ∧
      (∀ pb₂, pb₂ = pb →
        secp256k1PointToAptosAddress toBytesU parsePoint sha3 pb₂ =
          secp256k1PointToAptosAddress toBytesU parsePoint sha3 pb) := by
  have hdata : ("0x" ++ hexOfBytes (sha3 (1 :: 65 :: (toBytesU P ++ [2])))).data =
      ['0', 'x'] ++ (hexOfBytes (sha3 (1 :: 65 :: (toBytesU P ++ [2])))).data := by
    rw [String.data_append]
  have hhexlen : (hexOfBytes (sha3 (1 :: 65 :: (toBytesU P ++ [2])))).data.length = 64 := by
    have := hexOfBytes_length (sha3 (1 :: 65 :: (toBytesU P ++ [2])))
    rw [String.length] at this
    rw [this, h32]
  refine ⟨"0x" ++ hexOfBytes (sha3 (1 :: 65 :: (toBytesU P ++ [2]))),
    ?_, rfl, ?_, ?_, ?_, ?_, ?_, ?_⟩
  · simp [secp256k1PointToAptosAddress, hp]
  · simp [h65]
  · rw [String.length_append, hexOfBytes_length, h32]
    decide
  · rw [hdata]
    exact List.take_left ['0', 'x'] _
  · rw [hdata]
    have hd : ((['0', 'x'] : List Char) ++
        (hexOfBytes (sha3 (1 :: 65 :: (toBytesU P ++ [2])))).data).drop 2 =
        (hexOfBytes (sha3 (1 :: 65 :: (toBytesU P ++ [2])))).data :=
      List.drop_left ['0', 'x'] _
    rw [hd, hhexlen]
  · intro c hc
    rw [hdata] at hc
    have hd : ((['0', 'x'] : List Char) ++
        (hexOfBytes (sha3 (1 :: 65 :: (toBytesU P ++ [2])))).data).drop 2 =
        (hexOfBytes (sha3 (1 :: 65 :: (toBytesU P ++ [2])))).data :=
      List.drop_left ['0', 'x'] _
    rw [hd] at hc
    exact hexOfBytes_chars _ c hc
  · intro pb₂ h
    rw [h]

/-- Witness for C3 at the concrete `ZMod 5` instance, on the serialized
point `2`. -/
theorem claim_C3_witness :
    ∃ a : String,
      secp256k1PointToAptosAddress W.toU W.parseC W.sha3c (W.toC 2) = .ok a ∧
      a = "0x" ++ hexOfBytes (W.sha3c (1 :: 65 :: (W.toU 2 ++ [2]))) ∧
      (1 :: 65 :: (W.toU (2 : ZMod 5) ++ [2])).length = 68 ∧
      a.length = 66 ∧
      a.data.take 2 = ['0', 'x'] ∧
      (a.data.drop 2).length = 64 ∧
      (∀ c ∈ a.data.drop 2, isLowerHexChar c = true) ∧
      (∀ pb₂, pb₂ = W.toC 2 →
        secp256k1PointToAptosAddress W.toU W.parseC W.sha3c pb₂ =
          secp256k1PointToAptosAddress W.toU W.parseC W.sha3c (W.toC 2)) :=
  claim_C3_aptos_address W.toU W.parseC W.sha3c (W.toC 2) 2
    (by decide) (by decide) (by decide)

end Claim3

section Claim4

variable {Point : Type} [AddCommGroup Point] [DecidableEq Point]

/-- Claim C4: for every valid keypairs `(e, E)` and `(v, V)` and every
plaintext byte string `m` (the UTF-8 bytes of the message) with
`len(m) < 2^16`, decrypting an encrypted note with the paired keys returns
exactly `m`. -/
theorem claim_C4_note_roundtrip (G : Point) (n : Nat)
    (toBytesC : Point → List Nat) (parsePoint : List Nat → Option Point)
    (sha256 : List Nat → List Nat)
    (hnG : n • G = 0) (hn : n ≤ 256 ^ 32)
    (hord : ∀ a : Nat, a < n → 0 < a → a • G ≠ 0)
    (hparse : ∀ p : Point, parsePoint (toBytesC p) = some p)
    (v e : Nat) (hv : 0 < v) (hvn : v < n) (he : 0 < e) (hen : e < n)
    (hev : (e * v) % n ≠ 0)
    (nonce : List Nat) (hnonce : nonce.length = 24)
    (m : List Nat) (hm : m.length < 2 ^ 16) :
    ∃ c, encryptNote n toBytesC parsePoint sha256 nonce m (natToBytes32 e)
        (toBytesC (v • G)) = .ok c ∧
      decryptNote n toBytesC parsePoint sha256 c (natToBytes32 v)
        (toBytesC (e • G)) = .ok m := by
  have npos : 0 < n := lt_trans he hen
  have hq : e • (v • G) = (e * v) • G := smul_smul e v G
  have hq2 : v • (e • G) = (e * v) • G := by rw [smul_smul, Nat.mul_comm]
  have hnz : e • (v • G) ≠ 0 := by
    rw [hq, ← mod_nsmul_eq G n hnG]
    exact hord _ (Nat.mod_lt _ npos) (Nat.pos_of_ne_zero hev)
  have hnz2 : v • (e • G) ≠ 0 := by rw [hq2, ← hq]; exact hnz
  refine ⟨nonce ++ xorKeystream (sha256 ((toBytesC ((e * v) • G)).drop 1)) m, ?_, ?_⟩
  · simp [encryptNote,
      getSharedSecret_ok n toBytesC parsePoint he hen hn (hparse (v • G)) hnz, hq]
  · have hdrop : ∀ X : List Nat, (nonce ++ X).drop 24 = X := by
      intro X
      rw [← hnonce, List.drop_left]
    simp [decryptNote,
      getSharedSecret_ok n toBytesC parsePoint hv hvn hn (hparse (e • G)) hnz2,
      hq2, hdrop, xorKeystream_involutive]

/-- Witness for C4 at the concrete `ZMod 5` instance with message
`[104, 105]`. -/
theorem claim_C4_witness :
    ∃ c, encryptNote 5 W.toC W.parseC W.sha256c (List.replicate 24 0) [104, 105]
        (natToBytes32 1) (W.toC ((1 : Nat) • (1 : ZMod 5))) = .ok c ∧
      decryptNote 5 W.toC W.parseC W.sha256c c (natToBytes32 1)
        (W.toC ((1 : Nat) • (1 : ZMod 5))) = .ok [104, 105] :=
  claim_C4_note_roundtrip (1 : ZMod 5) 5 W.toC W.parseC W.sha256c
    (by decide) (by decide) (by decide) (by decide) 1 1
    (by decide) (by decide) (by decide) (by decide) (by decide)
    (List.replicate 24 0) (by decide) [104, 105] (by decide)

end Claim4

section Claim6

variable {Point : Type} [AddCommGroup Point] [DecidableEq Point]

/-- Claim C6: for every plaintext byte string `m` and valid
`(ephPriv, metaViewPub)`, `encryptNote` returns a byte string of length
`24 + len(m)` whose byte at offset `24 + i` is `m[i] XOR K[i mod 32]`, where
`K` is SHA-256 of bytes `1..33` of the compressed ECDH shared point, and
whose first 24 bytes are the nonce. -/
theorem claim_C6_encryptNote_layout (G : Point) (n : Nat)
    (toBytesC : Point → List Nat) (parsePoint : List Nat → Option Point)
    (sha256 : List Nat → List Nat)
    (hnG : n • G = 0) (hn : n ≤ 256 ^ 32)
    (hord : ∀ a : Nat, a < n → 0 < a → a • G ≠ 0)
    (hparse : ∀ p : Point, parsePoint (toBytesC p) = some p)
    (v e : Nat) (hv : 0 < v) (hvn : v < n) (he : 0 < e) (hen : e < n)
    (hev : (e * v) % n ≠ 0)
    (nonce : List Nat) (hnonce : nonce.length = 24) (m : List Nat) :
    ∃ c, encryptNote n toBytesC parsePoint sha256 nonce m (natToBytes32 e)
        (toBytesC (v • G)) = .ok c ∧
      c.length = 24 + m.length ∧
      c.take 24 = nonce ∧
      ∀ i, i < m.length →
        c.getD (24 + i) 0 = m.getD i 0 ^^^
          (sha256 ((toBytesC (e • (v • G))).drop 1)).getD (i % 32) 0 := by
  have npos : 0 < n := lt_trans he hen
  have hq : e • (v • G) = (e * v) • G := smul_smul e v G
  have hnz : e • (v • G) ≠ 0 := by
    rw [hq, ← mod_nsmul_eq G n hnG]
    exact hord _ (Nat.mod_lt _ npos) (Nat.pos_of_ne_zero hev)
  refine ⟨nonce ++ xorKeystream (sha256 ((toBytesC (e • (v • G))).drop 1)) m,
    ?_, ?_, ?_, ?_⟩
  · simp [encryptNote,
      getSharedSecret_ok n toBytesC parsePoint he hen hn (hparse (v • G)) hnz, hq]
  · rw [List.length_append, hnonce, xorKeystream_length]
  · rw [← hnonce, List.take_left]
  · intro i hi
    have h24 : 24 + i - nonce.length = i := by omega
    rw [List.getD_append_right nonce _ 0 (24 + i) (by omega), h24,
      xorKeystream_getD _ _ _ hi]

/-- Witness for C6 at the concrete `ZMod 5` instance. -/
theorem claim_C6_witness :
    ∃ c, encryptNote 5 W.toC W.parseC W.sha256c (List.replicate 24 7) [10, 20, 30]
        (natToBytes32 1) (W.toC ((1 : Nat) • (1 : ZMod 5))) = .ok c ∧
      c.length = 24 + ([10, 20, 30] : List Nat).length ∧
      c.take 24 = List.replicate 24 7 ∧
      ∀ i, i < ([10, 20, 30] : List Nat).length →
        c.getD (24 + i) 0 = ([10, 20, 30] : List Nat).getD i 0 ^^^
          (W.sha256c ((W.toC ((1 : Nat) • ((1 : Nat) • (1 : ZMod 5)))).drop 1)).getD (i % 32) 0 :=
  claim_C6_encryptNote_layout (1 : ZMod 5) 5 W.toC W.parseC W.sha256c
    (by decide) (by decide) (by decide) (by decide) 1 1
    (by decide) (by decide) (by decide) (by decide) (by decide)
    (List.replicate 24 7) (by decide) [10, 20, 30]

end Claim6

section Claim7

variable {Point : Type} [AddCommGroup Point] [DecidableEq Point]

/-- Claim C7 (amended): the blob returned by `encryptEphemeralPrivKey` is
the base58 encoding of a 24-byte nonce followed by the XOR-ciphertext of
`ephPriv ‖ ephPub`, whose plaintext is 65 bytes (32 + 33, not 64), so the
pre-encoding (decoded) blob is exactly 89 bytes (not 88). -/
theorem claim_C7_amended_blob_layout (G : Point) (n : Nat)
    (toBytesC : Point → List Nat) (parsePoint : List Nat → Option Point)
    (sha256 : List Nat → List Nat) (b58enc : List Nat → String)
    (hnG : n • G = 0) (hn : n ≤ 256 ^ 32)
    (hord : ∀ a : Nat, a < n → 0 < a → a • G ≠ 0)
    (hparse : ∀ p : Point, parsePoint (toBytesC p) = some p)
    (v e : Nat) (hC33 : (toBytesC (e • G)).length = 33)
    (hv : 0 < v) (hvn : v < n) (he : 0 < e) (hen : e < n)
    (hev : (e * v) % n ≠ 0)
    (nonce : List Nat) (hnonce : nonce.length = 24) :
    ∃ C : List Nat,
      encryptEphemeralPrivKey G n toBytesC parsePoint sha256 b58enc nonce
        (natToBytes32 e) (toBytesC (v • G)) = .ok (b58enc (nonce ++ C)) ∧
      C = xorKeystream (sha256 ((toBytesC (e • (v • G))).drop 1))
        (natToBytes32 e ++ toBytesC (e • G)) ∧
      (natToBytes32 e ++ toBytesC (e • G)).length = 65 ∧
      C.length = 65 ∧
      (nonce ++ C).length = 89 := by
  have npos : 0 < n := lt_trans he hen
  have hq : e • (v • G) = (e * v) • G := smul_smul e v G
  have hnz : e • (v • G) ≠ 0 := by
    rw [hq, ← mod_nsmul_eq G n hnG]
    exact hord _ (Nat.mod_lt _ npos) (Nat.pos_of_ne_zero hev)
  have hplen : (natToBytes32 e ++ toBytesC (e • G)).length = 65 := by
    rw [List.length_append, natToBytes32_length, hC33]
  refine ⟨xorKeystream (sha256 ((toBytesC (e • (v • G))).drop 1))
    (natToBytes32 e ++ toBytesC (e • G)), ?_, rfl, hplen, ?_, ?_⟩
  · simp [encryptEphemeralPrivKey,
      getSharedSecret_ok n toBytesC parsePoint he hen hn (hparse (v • G)) hnz,
      getPublicKey_ok G n toBytesC he hen hn, hq]
  · rw [xorKeystream_length, hplen]
  · rw [List.length_append, hnonce, xorKeystream_length, hplen]

/-- Witness for the amended C7 at the concrete `ZMod 5` instance. -/
theorem claim_C7_witness :
    ∃ C : List Nat,
      encryptEphemeralPrivKey (1 : ZMod 5) 5 W.toC W.parseC W.sha256c W.b58c
        (List.replicate 24 0) (natToBytes32 1)
        (W.toC ((1 : Nat) • (1 : ZMod 5))) = .ok (W.b58c (List.replicate 24 0 ++ C)) ∧
      C = xorKeystream (W.sha256c ((W.toC ((1 : Nat) • ((1 : Nat) • (1 : ZMod 5)))).drop 1))
        (natToBytes32 1 ++ W.toC ((1 : Nat) • (1 : ZMod 5))) ∧
      (natToBytes32 1 ++ W.toC ((1 : Nat) • (1 : ZMod 5))).length = 65 ∧
      C.length = 65 ∧
      (List.replicate 24 0 ++ C).length = 89 :=
  claim_C7_amended_blob_layout (1 : ZMod 5) 5 W.toC W.parseC W.sha256c W.b58c
    (by decide) (by decide) (by decide) (by decide) 1 1 (by decide)
    (by decide) (by decide) (by decide) (by decide) (by decide)
    (List.replicate 24 0) (by decide)

/-- The pre-base58 payload of the C7/C5 counterexamples: nonce of 24 zero
bytes, zero keystream (the counterexample hash returns 32 zero bytes), so
the ciphertext equals the plaintext `natToBytes32 4 ‖ W.toC 4`. -/
def Wx.payload : List Nat :=
  List.replicate 24 0 ++
    xorKeystream (List.replicate 32 0) (natToBytes32 4 ++ W.toC 4)

/-- Counterexample hash: 32 zero bytes. -/
def Wx.sha0 (_ : List Nat) : List Nat := List.replicate 32 0

/-- Counterexample base58 encoder: names the payload of length 89. -/
def Wx.b58e (l : List Nat) : String := if l = Wx.payload then "blobX" else "?"

/-- Counterexample base58 decoder: `"blobX"` decodes to the honest payload,
`"tampX"` to the payload with bit 0 of byte 55 (the last private-key byte of
the ciphertext region) flipped. -/
def Wx.b58d (s : String) : Option (List Nat) :=
  if s = "tampX" then some (flipAt Wx.payload 55 1)
  else if s = "blobX" then some Wx.payload else none

/-- Counterexample for C7 as stated: the decoded blob of a valid encryption
is 89 bytes, not 88, because the plaintext `ephPriv ‖ ephPub` is 65 bytes,
not 64. -/
theorem claim_C7_counterexample :
    encryptEphemeralPrivKey (1 : ZMod 5) 5 W.toC W.parseC Wx.sha0 Wx.b58e
      (List.replicate 24 0) (natToBytes32 4) (W.toC 1) = .ok "blobX" ∧
    Wx.b58d "blobX" = some Wx.payload ∧
    Wx.payload.length = 89 ∧
    (natToBytes32 4 ++ W.toC 4).length = 65 ∧
    Wx.payload.length ≠ 88 := by
  refine ⟨by decide, by decide, by decide, by decide, by decide⟩

end Claim7

section Claim5Support

variable {Point : Type} [AddCommGroup Point] [DecidableEq Point]

theorem getPublicKey_ok_bytes (G : Point) (n : Nat) (toBytesC : Point → List Nat)
    (priv : List Nat) (h32 : priv.length = 32) (hx : 0 < bytesToNat priv)
    (hxn : bytesToNat priv < n) :
    getPublicKey G n toBytesC priv = .ok (toBytesC (bytesToNat priv • G)) := by
  simp [getPublicKey, h32, hx, hxn]

theorem getPublicKey_err_bytes (G : Point) (n : Nat) (toBytesC : Point → List Nat)
    (priv : List Nat)
    (h : ¬(priv.length = 32 ∧ 0 < bytesToNat priv ∧ bytesToNat priv < n)) :
    getPublicKey G n toBytesC priv = .error .badKeyFormat := by
  rw [getPublicKey, if_neg h]

theorem nsmul_inj_of_ord (G : Point) (n : Nat)
    (hord : ∀ a : Nat, a < n → 0 < a → a • G ≠ 0)
    {a b : Nat} (ha : a < n) (hb : b < n) (h : a • G = b • G) : a = b := by
  rcases Nat.lt_trichotomy a b with hlt | heq | hgt
  · exfalso
    have hsub : (b - a) • G = 0 := by
      have hh : a • G + (b - a) • G = a • G + 0 := by
        rw [← add_nsmul, Nat.add_sub_cancel' (le_of_lt hlt), add_zero, h]
      exact add_left_cancel hh
    exact hord (b - a) (by omega) (by omega) hsub
  · exact heq
  · exfalso
    have hsub : (a - b) • G = 0 := by
      have hh : b • G + (a - b) • G = b • G + 0 := by
        rw [← add_nsmul, Nat.add_sub_cancel' (le_of_lt hgt), add_zero, ← h]
      exact add_left_cancel hh
    exact hord (a - b) (by omega) (by omega) hsub

/-- Evaluation of `decryptEphemeralPrivKey` on any payload that decodes to
a 24-byte nonce followed by the keystream encryption of a plaintext `X`. -/
theorem decryptEph_eval (G : Point) (n : Nat) (toBytesC : Point → List Nat)
    (parsePoint : List Nat → Option Point) (sha256 : List Nat → List Nat)
    (b58dec : String → Option (List Nat))
    {v : Nat} (hv : 0 < v) (hvn : v < n) (hn : n ≤ 256 ^ 32)
    {Eb : List Nat} {Ept : Point} (hE : parsePoint Eb = some Ept)
    (hnz : v • Ept ≠ 0)
    (nonce : List Nat) (hnonce : nonce.length = 24)
    (str : String) (X : List Nat)
    (hdec : b58dec str =
      some (nonce ++ xorKeystream (sha256 ((toBytesC (v • Ept)).drop 1)) X)) :
    decryptEphemeralPrivKey G n toBytesC parsePoint sha256 b58dec str
      (natToBytes32 v) Eb =
    match getPublicKey G n toBytesC (X.take 32) with
    | .error err => .error err
    | .ok computedPub =>
      if (X.drop 32).take computedPub.length = computedPub then .ok (X.take 32)
      else .error .decryptionFailure := by
  have hdrop : ∀ Y : List Nat, (nonce ++ Y).drop 24 = Y := fun Y => by
    rw [← hnonce, List.drop_left]
  simp [decryptEphemeralPrivKey, hdec,
    getSharedSecret_ok n toBytesC parsePoint hv hvn hn hE hnz,
    hdrop, xorKeystream_involutive]

theorem take_self_of_length (l : List Nat) (k : Nat) (h : l.length = k) :
    l.take k = l := by
  rw [← h, List.take_length]

end Claim5Support

section Claim5

variable {Point : Type} [AddCommGroup Point] [DecidableEq Point]

/-- Claim C5 (amended): `decryptEphemeralPrivKey` inverts
`encryptEphemeralPrivKey` on paired keys; and every single-bit flip in the
ciphertext region (decoded bytes at offset 24 and beyond) makes decryption
fail — with `DecryptionFailure` whenever the flip lands in the embedded
public-key region (plaintext offset 32..65) or leaves the recovered private
key a valid scalar, and with `BadKeyFormat` (noble's invalid-key throw,
not the mismatch throw) when a private-key-region flip pushes the recovered
key to `0` or `≥ n`. -/
theorem claim_C5_amended_blob_integrity (G : Point) (n : Nat)
    (toBytesC : Point → List Nat) (parsePoint : List Nat → Option Point)
    (sha256 : List Nat → List Nat) (b58enc : List Nat → String)
    (b58dec : String → Option (List Nat))
    (hnG : n • G = 0) (hn : n ≤ 256 ^ 32)
    (hord : ∀ a : Nat, a < n → 0 < a → a • G ≠ 0)
    (hparse : ∀ p : Point, parsePoint (toBytesC p) = some p)
    (hCinj : ∀ p q : Point, toBytesC p = toBytesC q → p = q)
    (hC33 : ∀ p : Point, (toBytesC p).length = 33)
    (v e : Nat) (hv : 0 < v) (hvn : v < n) (he : 0 < e) (hen : e < n)
    (hev : (e * v) % n ≠ 0)
    (nonce : List Nat) (hnonce : nonce.length = 24)
    (blobStr : String)
    (henc : encryptEphemeralPrivKey G n toBytesC parsePoint sha256 b58enc nonce
      (natToBytes32 e) (toBytesC (v • G)) = .ok blobStr)
    (hdec : b58dec blobStr = some (nonce ++
      xorKeystream (sha256 ((toBytesC (v • (e • G))).drop 1))
        (natToBytes32 e ++ toBytesC (e • G)))) :
    decryptEphemeralPrivKey G n toBytesC parsePoint sha256 b58dec blobStr
      (natToBytes32 v) (toBytesC (e • G)) = .ok (natToBytes32 e) ∧
    ∀ j bit : Nat, j < 65 → bit < 8 → ∀ tampStr : String,
      b58dec tampStr = some (flipAt (nonce ++
        xorKeystream (sha256 ((toBytesC (v • (e • G))).drop 1))
          (natToBytes32 e ++ toBytesC (e • G))) (24 + j) (2 ^ bit)) →
      decryptEphemeralPrivKey G n toBytesC parsePoint sha256 b58dec tampStr
        (natToBytes32 v) (toBytesC (e • G)) =
        .error (if j < 32 ∧
            ¬(0 < bytesToNat (flipAt (natToBytes32 e) j (2 ^ bit)) ∧
              bytesToNat (flipAt (natToBytes32 e) j (2 ^ bit)) < n)
          then CoreErr.badKeyFormat else CoreErr.decryptionFailure) := by
  have npos : 0 < n := lt_trans he hen
  have hq2 : v • (e • G) = (e * v) • G := by rw [smul_smul, Nat.mul_comm]
  have hnz2 : v • (e • G) ≠ 0 := by
    rw [hq2, ← mod_nsmul_eq G n hnG]
    exact hord _ (Nat.mod_lt _ npos) (Nat.pos_of_ne_zero hev)
  have hptake : (natToBytes32 e ++ toBytesC (e • G)).take 32 = natToBytes32 e := by
    rw [← natToBytes32_length e]
    exact List.take_left _ _
  have hpdrop : (natToBytes32 e ++ toBytesC (e • G)).drop 32 = toBytesC (e • G) := by
    rw [← natToBytes32_length e]
    exact List.drop_left _ _
  constructor
  · rw [decryptEph_eval G n toBytesC parsePoint sha256 b58dec hv hvn hn
      (hparse (e • G)) hnz2 nonce hnonce blobStr
      (natToBytes32 e ++ toBytesC (e • G)) hdec]
    rw [hptake, hpdrop, getPublicKey_ok G n toBytesC he hen hn]
    simp [List.take_length]
  · intro j bit hj hbit tampStr htamp
    have hmaskpos : 0 < 2 ^ bit := pow_pos (by norm_num) bit
    have hmasklt : (2 : Nat) ^ bit < 256 := by
      calc (2 : Nat) ^ bit ≤ 2 ^ 7 := Nat.pow_le_pow_right (by norm_num) (by omega)
        _ < 256 := by norm_num
    have hd24 : ∀ Y : List Nat, (nonce ++ Y).drop 24 = Y := fun Y => by
      rw [← hnonce, List.drop_left]
    have hpayload : flipAt (nonce ++
        xorKeystream (sha256 ((toBytesC (v • (e • G))).drop 1))
          (natToBytes32 e ++ toBytesC (e • G))) (24 + j) (2 ^ bit) =
        nonce ++ xorKeystream (sha256 ((toBytesC (v • (e • G))).drop 1))
          (flipAt (natToBytes32 e ++ toBytesC (e • G)) j (2 ^ bit)) := by
      have hidx : 24 + j - 24 = j := by omega
      have h1 : (flipAt (nonce ++
          xorKeystream (sha256 ((toBytesC (v • (e • G))).drop 1))
            (natToBytes32 e ++ toBytesC (e • G))) (24 + j) (2 ^ bit)).take 24 =
          nonce := by
        rw [flipAt_take_of_le _ _ _ _ (by omega), ← hnonce, List.take_left]
      have h2 : (flipAt (nonce ++
          xorKeystream (sha256 ((toBytesC (v • (e • G))).drop 1))
            (natToBytes32 e ++ toBytesC (e • G))) (24 + j) (2 ^ bit)).drop 24 =
          flipAt (xorKeystream (sha256 ((toBytesC (v • (e • G))).drop 1))
            (natToBytes32 e ++ toBytesC (e • G))) j (2 ^ bit) := by
        rw [flipAt_drop_of_le _ _ _ _ (by omega), hd24, hidx]
      calc flipAt (nonce ++
            xorKeystream (sha256 ((toBytesC (v • (e • G))).drop 1))
              (natToBytes32 e ++ toBytesC (e • G))) (24 + j) (2 ^ bit)
          = (flipAt (nonce ++
              xorKeystream (sha256 ((toBytesC (v • (e • G))).drop 1))
                (natToBytes32 e ++ toBytesC (e • G))) (24 + j) (2 ^ bit)).take 24 ++
            (flipAt (nonce ++
              xorKeystream (sha256 ((toBytesC (v • (e • G))).drop 1))
                (natToBytes32 e ++ toBytesC (e • G))) (24 + j) (2 ^ bit)).drop 24 :=
            (List.take_append_drop _ _).symm
        _ = nonce ++ flipAt (xorKeystream (sha256 ((toBytesC (v • (e • G))).drop 1))
              (natToBytes32 e ++ toBytesC (e • G))) j (2 ^ bit) := by rw [h1, h2]
        _ = nonce ++ xorKeystream (sha256 ((toBytesC (v • (e • G))).drop 1))
              (flipAt (natToBytes32 e ++ toBytesC (e • G)) j (2 ^ bit)) := by
            rw [← xorKeystream_flipAt]
    rw [hpayload] at htamp
    rw [decryptEph_eval G n toBytesC parsePoint sha256 b58dec hv hvn hn
      (hparse (e • G)) hnz2 nonce hnonce tampStr
      (flipAt (natToBytes32 e ++ toBytesC (e • G)) j (2 ^ bit)) htamp]
    by_cases hj32 : j < 32
    · have htake : (flipAt (natToBytes32 e ++ toBytesC (e • G)) j (2 ^ bit)).take 32 =
          flipAt (natToBytes32 e) j (2 ^ bit) := by
        rw [flipAt_take_of_lt _ _ _ _ hj32, hptake]
      have hdrop32 : (flipAt (natToBytes32 e ++ toBytesC (e • G)) j (2 ^ bit)).drop 32 =
          toBytesC (e • G) := by
        rw [flipAt_drop_of_lt _ _ _ _ hj32, hpdrop]
      have hpblen : (flipAt (natToBytes32 e) j (2 ^ bit)).length = 32 := by
        rw [flipAt_length, natToBytes32_length]
      have hpbbytes : ∀ b ∈ flipAt (natToBytes32 e) j (2 ^ bit), b < 256 :=
        flipAt_bytes_lt _ _ _ hmasklt (natToBytesBE_lt 32 e)
      have hpbne : flipAt (natToBytes32 e) j (2 ^ bit) ≠ natToBytes32 e :=
        flipAt_ne _ _ _ (by rw [natToBytes32_length]; exact hj32) hmaskpos
      by_cases hval : 0 < bytesToNat (flipAt (natToBytes32 e) j (2 ^ bit)) ∧
          bytesToNat (flipAt (natToBytes32 e) j (2 ^ bit)) < n
      · have hne : (toBytesC (e • G)).take
            (toBytesC (bytesToNat (flipAt (natToBytes32 e) j (2 ^ bit)) • G)).length ≠
            toBytesC (bytesToNat (flipAt (natToBytes32 e) j (2 ^ bit)) • G) := by
          rw [hC33, take_self_of_length _ _ (hC33 (e • G))]
          intro hcontra
          have hpt : (e : Nat) • G =
              bytesToNat (flipAt (natToBytes32 e) j (2 ^ bit)) • G :=
            hCinj _ _ hcontra
          have heq : e = bytesToNat (flipAt (natToBytes32 e) j (2 ^ bit)) :=
            nsmul_inj_of_ord G n hord hen hval.2 hpt
          have : flipAt (natToBytes32 e) j (2 ^ bit) = natToBytes32 e := by
            rw [← natToBytes32_bytesToNat (flipAt (natToBytes32 e) j (2 ^ bit))
              hpblen hpbbytes, ← heq]
          exact hpbne this
        simp [htake, hdrop32,
          getPublicKey_ok_bytes G n toBytesC _ hpblen hval.1 hval.2,
          hne, hj32, hval.1, hval.2]
      · have herr : getPublicKey G n toBytesC (flipAt (natToBytes32 e) j (2 ^ bit)) =
            .error .badKeyFormat := by
          apply getPublicKey_err_bytes
          intro hcontra
          exact hval hcontra.2
        simp [htake, herr, hj32, hval]
    · have h32j : 32 ≤ j := by omega
      have htake : (flipAt (natToBytes32 e ++ toBytesC (e • G)) j (2 ^ bit)).take 32 =
          natToBytes32 e := by
        rw [flipAt_take_of_le _ _ _ _ h32j, hptake]
      have hdrop32 : (flipAt (natToBytes32 e ++ toBytesC (e • G)) j (2 ^ bit)).drop 32 =
          flipAt (toBytesC (e • G)) (j - 32) (2 ^ bit) := by
        rw [flipAt_drop_of_le _ _ _ _ h32j, hpdrop]
      have hflen : (flipAt (toBytesC (e • G)) (j - 32) (2 ^ bit)).length = 33 := by
        rw [flipAt_length, hC33]
      have hne : (flipAt (toBytesC (e • G)) (j - 32) (2 ^ bit)).take
          (toBytesC (e • G)).length ≠ toBytesC (e • G) := by
        rw [hC33, take_self_of_length _ _ hflen]
        exact flipAt_ne _ _ _ (by rw [hC33]; omega) hmaskpos
      simp [htake, hdrop32, getPublicKey_ok G n toBytesC he hen hn, hne, hj32]

end Claim5

/-- The honest pre-base58 payload of the C5 witness: 24 zero nonce bytes and
the keystream encryption of `natToBytes32 1 ‖ W.toC 1` under the constant
key `replicate 32 1`. -/
def W.payloadRT : List Nat :=
  List.replicate 24 0 ++
    xorKeystream (List.replicate 32 1) (natToBytes32 1 ++ W.toC 1)

/-- Witness base58 decoder: decodes only the honest blob. -/
def W.b58dRT (s : String) : Option (List Nat) :=
  if s = "b58blob" then some W.payloadRT else none

/-- Witness for the amended C5 at the concrete `ZMod 5` instance with
`v = e = 1`. -/
theorem claim_C5_witness :
    decryptEphemeralPrivKey (1 : ZMod 5) 5 W.toC W.parseC W.sha256c W.b58dRT
      "b58blob" (natToBytes32 1) (W.toC ((1 : Nat) • (1 : ZMod 5))) =
      .ok (natToBytes32 1) ∧
    ∀ j bit : Nat, j < 65 → bit < 8 → ∀ tampStr : String,
      W.b58dRT tampStr = some (flipAt (List.replicate 24 0 ++
        xorKeystream
          (W.sha256c ((W.toC ((1 : Nat) • ((1 : Nat) • (1 : ZMod 5)))).drop 1))
          (natToBytes32 1 ++ W.toC ((1 : Nat) • (1 : ZMod 5)))) (24 + j) (2 ^ bit)) →
      decryptEphemeralPrivKey (1 : ZMod 5) 5 W.toC W.parseC W.sha256c W.b58dRT
        tampStr (natToBytes32 1) (W.toC ((1 : Nat) • (1 : ZMod 5))) =
        .error (if j < 32 ∧
            ¬(0 < bytesToNat (flipAt (natToBytes32 1) j (2 ^ bit)) ∧
              bytesToNat (flipAt (natToBytes32 1) j (2 ^ bit)) < 5)
          then CoreErr.badKeyFormat else CoreErr.decryptionFailure) :=
  claim_C5_amended_blob_integrity (1 : ZMod 5) 5 W.toC W.parseC W.sha256c
    W.b58c W.b58dRT (by decide) (by decide) (by decide) (by decide) (by decide)
    (by decide) 1 1 (by decide) (by decide) (by decide) (by decide) (by decide)
    (List.replicate 24 0) (by decide) "b58blob" (by decide) (by decide)

/-- Counterexample for C5 as stated: with `e = 4 = n - 1`, flipping the
single bit 0 of decoded byte 55 — inside the ciphertext region, at the last
private-key byte — makes the recovered private key equal to `n`, so
decryption fails with the invalid-key error (`BadKeyFormat`), not with
`DecryptionFailure` as the claim demands. -/
theorem claim_C5_counterexample :
    encryptEphemeralPrivKey (1 : ZMod 5) 5 W.toC W.parseC Wx.sha0 Wx.b58e
      (List.replicate 24 0) (natToBytes32 4) (W.toC 1) = .ok "blobX" ∧
    Wx.b58d "tampX" = some (flipAt Wx.payload 55 (2 ^ 0)) ∧
    24 ≤ 55 ∧
    decryptEphemeralPrivKey (1 : ZMod 5) 5 W.toC W.parseC Wx.sha0 Wx.b58d
      "tampX" (natToBytes32 1) (W.toC 4) = .error CoreErr.badKeyFormat ∧
    CoreErr.badKeyFormat ≠ CoreErr.decryptionFailure := by
  refine ⟨by decide, by decide, by decide, by decide, by decide⟩

section Claim9

variable {Point : Type} [AddCommGroup Point] [DecidableEq Point]

/-- Claim C9: for fixed `(metaViewPriv, ephPub)`, two note blobs of equal
length that agree on every byte from offset 24 onward decrypt to the same
plaintext: the nonce prefix never influences the decrypted output. -/
theorem claim_C9_nonce_ignored (n : Nat) (toBytesC : Point → List Nat)
    (parsePoint : List Nat → Option Point) (sha256 : List Nat → List Nat)
    (metaViewPriv ephPub : List Nat)
    (blob₁ blob₂ : List Nat) (hlen : blob₁.length = blob₂.length)
    (htail : blob₁.drop 24 = blob₂.drop 24) :
    decryptNote n toBytesC parsePoint sha256 blob₁ metaViewPriv ephPub =
    decryptNote n toBytesC parsePoint sha256 blob₂ metaViewPriv ephPub := by
  unfold decryptNote
  rw [htail]

/-- Witness for C9: two 26-byte blobs with different nonces and the same two
trailing ciphertext bytes decrypt identically. -/
theorem claim_C9_witness :
    decryptNote 5 W.toC W.parseC W.sha256c (List.replicate 24 9 ++ [1, 2])
      (natToBytes32 1) (W.toC 1) =
    decryptNote 5 W.toC W.parseC W.sha256c (List.replicate 24 3 ++ [1, 2])
      (natToBytes32 1) (W.toC 1) :=
  claim_C9_nonce_ignored 5 W.toC W.parseC W.sha256c (natToBytes32 1) (W.toC 1)
    (List.replicate 24 9 ++ [1, 2]) (List.replicate 24 3 ++ [1, 2])
    (by decide) (by decide)

end Claim9

/-- Base58 decoder used by the C8/C10 witnesses: only the string `"b33"`
decodes, to 33 bytes. -/
def W.b58d8 (s : String) : Option (List Nat) :=
  if s = "b33" then some (List.replicate 33 1) else none

/-- Claim C8 (amended): `to32u8` fails with `BadKeyFormat` only on inputs
that are neither `Uint8Array`, string, nor `{type:'Buffer'}` objects, and on
strings that are neither 64-char hex nor decodable base58.  Contrary to the
claim, it accepts empty `Uint8Array` input (returned as-is) and returns
base58 decodings of any length — including 33 bytes — without a length
check; 63-char hex and non-hex 64-char strings are not rejected either but
fall through to base58 decoding, failing only when a character is outside
the base58 alphabet. -/
theorem claim_C8_amended_to32u8_rejection (b58dec : String → Option (List Nat)) :
    to32u8 b58dec .other = .error CoreErr.badKeyFormat ∧
    (∀ s : String, isHex64 s = false → b58dec s = none →
      to32u8 b58dec (.str s) = .error CoreErr.badKeyFormat) ∧
    (∀ b : List Nat, to32u8 b58dec (.bytes b) = .ok b) ∧
    (∀ s : String, ∀ l : List Nat, isHex64 s = false → b58dec s = some l →
      to32u8 b58dec (.str s) = .ok l) := by
  refine ⟨rfl, ?_, fun b => rfl, ?_⟩
  · intro s hhex hdec
    simp [to32u8, hhex, hdec]
  · intro s l hhex hdec
    simp [to32u8, hhex, hdec]

/-- Witness for the amended C8 on concrete inputs. -/
theorem claim_C8_witness :
    to32u8 W.b58d8 .other = .error CoreErr.badKeyFormat ∧
    to32u8 W.b58d8 (.str "zz!!") = .error CoreErr.badKeyFormat ∧
    to32u8 W.b58d8 (.bytes []) = .ok [] ∧
    to32u8 W.b58d8 (.str "b33") = .ok (List.replicate 33 1) := by
  obtain ⟨h1, h2, h3, h4⟩ := claim_C8_amended_to32u8_rejection W.b58d8
  exact ⟨h1, h2 "zz!!" (by decide) (by decide), h3 [],
    h4 "b33" (List.replicate 33 1) (by decide) (by decide)⟩

/-- Counterexample for C8 as stated: `to32u8` does not fail on empty input
(an empty `Uint8Array` is returned unchanged) nor on a base58 string that
decodes to 33 bytes (it returns the 33 bytes); both cases the claim demands
to fail with `BadKeyFormat`. -/
theorem claim_C8_counterexample :
    to32u8 W.b58d8 (.bytes []) = .ok ([] : List Nat) ∧
    to32u8 W.b58d8 (.bytes []) ≠ .error CoreErr.badKeyFormat ∧
    to32u8 W.b58d8 (.str "b33") = .ok (List.replicate 33 1) ∧
    to32u8 W.b58d8 (.str "b33") ≠ .error CoreErr.badKeyFormat := by
  refine ⟨by decide, by decide, by decide, by decide⟩

/-- Claim C10: `to32u8` returns every `Uint8Array` input unchanged, whatever
its length, and returns the base58 decoding of every non-64-hex string
whatever the decoded length: the raw-bytes and base58 paths perform no
length validation. -/
theorem claim_C10_to32u8_no_validation (b58dec : String → Option (List Nat)) :
    (∀ b : List Nat, to32u8 b58dec (.bytes b) = .ok b) ∧
    (∀ s : String, ∀ l : List Nat, isHex64 s = false → b58dec s = some l →
      to32u8 b58dec (.str s) = .ok l) := by
  refine ⟨fun b => rfl, ?_⟩
  intro s l hhex hdec
  simp [to32u8, hhex, hdec]

/-- Witness for C10 on concrete inputs of lengths 0, 31, 33. -/
theorem claim_C10_witness :
    to32u8 W.b58d8 (.bytes []) = .ok [] ∧
    to32u8 W.b58d8 (.bytes (List.replicate 31 7)) = .ok (List.replicate 31 7) ∧
    to32u8 W.b58d8 (.bytes (List.replicate 33 7)) = .ok (List.replicate 33 7) ∧
    to32u8 W.b58d8 (.str "b33") = .ok (List.replicate 33 1) := by
  obtain ⟨h1, h2⟩ := claim_C10_to32u8_no_validation W.b58d8
  exact ⟨h1 [], h1 (List.replicate 31 7), h1 (List.replicate 33 7),
    h2 "b33" (List.replicate 33 1) (by decide) (by decide)⟩

end Pivy
